import Mathlib

/-!
Verification of the geometry/orientation and roll-state logic of a 3D
dice-rolling widget.  The source consists of two files:

* `Die3D.tsx` — the geometry / face configurator (`getDieConfig`), the
  orientation controller (the `targetQuaternion` memo inside `DieMesh`) and
  the per-frame animation;
* `DiceRoller.tsx` — the roll driver (`rollDice`) and the widget state
  (`selectedDie`, `result`, `isRolling`).

Vector and quaternion operations are the ones of the three.js library that
the source calls (`Vector3.normalize`, `Quaternion.setFromUnitVectors`,
`Quaternion.normalize`, and the rotation action `Vector3.applyQuaternion`),
embedded over the real numbers: exact arithmetic stands in for IEEE doubles,
and `Number.EPSILON` is kept as the literal constant 2⁻⁵².  The roll driver
and the widget state machine are embedded computably, with the uniform
random sample `Math.random()` made an explicit rational parameter in [0, 1).
-/

namespace Dice

/-- Three-component vector (three.js `Vector3`) over ℝ. -/
@[ext] structure Vec3 where
  x : ℝ
  y : ℝ
  z : ℝ

namespace Vec3

/-- three.js `Vector3.dot`. -/
noncomputable def dot (a b : Vec3) : ℝ := a.x * b.x + a.y * b.y + a.z * b.z

/-- three.js `Vector3.length`: the Euclidean length. -/
noncomputable def length (v : Vec3) : ℝ := Real.sqrt (dot v v)

/-- three.js `Vector3.normalize`: `divideScalar(this.length() || 1)` — divide
by the length, or leave the vector unchanged when the length is 0. -/
noncomputable def normalize (v : Vec3) : Vec3 :=
  if length v = 0 then v else ⟨v.x / length v, v.y / length v, v.z / length v⟩

end Vec3

/-- three.js `Quaternion` with components (x, y, z, w). -/
@[ext] structure Quat where
  x : ℝ
  y : ℝ
  z : ℝ
  w : ℝ

namespace Quat

/-- three.js `Quaternion.lengthSq`. -/
noncomputable def lengthSq (q : Quat) : ℝ := q.x * q.x + q.y * q.y + q.z * q.z + q.w * q.w

/-- three.js `Quaternion.length`. -/
noncomputable def length (q : Quat) : ℝ := Real.sqrt q.lengthSq

/-- three.js `Quaternion.normalize`: the zero quaternion goes to the identity
(0, 0, 0, 1); otherwise every component is divided by the length. -/
noncomputable def normalize (q : Quat) : Quat :=
  if length q = 0 then ⟨0, 0, 0, 1⟩
  else ⟨q.x / length q, q.y / length q, q.z / length q, q.w / length q⟩

end Quat

/-- JavaScript `Number.EPSILON` = 2⁻⁵². -/
noncomputable def numberEpsilon : ℝ := 1 / 2 ^ 52

/-- three.js `Quaternion.setFromUnitVectors`: the quaternion rotating the
unit vector `vFrom` onto the unit vector `vTo` — cross product plus
`1 + dot` as scalar part, normalized; with an explicit fallback (a 180°
rotation about an axis perpendicular to `vFrom`) when `1 + dot` falls below
`Number.EPSILON`. -/
noncomputable def Quat.setFromUnitVectors (vFrom vTo : Vec3) : Quat :=
  let r := Vec3.dot vFrom vTo + 1
  if r < numberEpsilon then
    if |vFrom.x| > |vFrom.z| then
      Quat.normalize ⟨-vFrom.y, vFrom.x, 0, 0⟩
    else
      Quat.normalize ⟨0, -vFrom.z, vFrom.y, 0⟩
  else
    Quat.normalize ⟨vFrom.y * vTo.z - vFrom.z * vTo.y,
                    vFrom.z * vTo.x - vFrom.x * vTo.z,
                    vFrom.x * vTo.y - vFrom.y * vTo.x, r⟩

/-- three.js `Vector3.applyQuaternion` (the rotation action of a unit
quaternion on a vector): `t = 2·(q.xyz × v)`, result `v + q.w·t + q.xyz × t`. -/
noncomputable def Vec3.applyQuaternion (v : Vec3) (q : Quat) : Vec3 :=
  let tx := 2 * (q.y * v.z - q.z * v.y)
  let ty := 2 * (q.z * v.x - q.x * v.z)
  let tz := 2 * (q.x * v.y - q.y * v.x)
  ⟨v.x + q.w * tx + q.y * tz - q.z * ty,
   v.y + q.w * ty + q.z * tx - q.x * tz,
   v.z + q.w * tz + q.x * ty - q.y * tx⟩

/-- The viewer-facing axis (0, 0, 1) that a settled face is rotated onto
(`targetVec` in `Die3D.tsx`). -/
noncomputable def viewerAxis : Vec3 := ⟨0, 0, 1⟩

theorem quat_lengthSq_cross (a b : Vec3) (ha : Vec3.dot a a = 1) (hb : Vec3.dot b b = 1) :
    Quat.lengthSq ⟨a.y * b.z - a.z * b.y, a.z * b.x - a.x * b.z,
                   a.x * b.y - a.y * b.x, Vec3.dot a b + 1⟩ =
      2 * (Vec3.dot a b + 1) := by
  simp only [Quat.lengthSq, Vec3.dot] at *
  linear_combination (b.x ^ 2 + b.y ^ 2 + b.z ^ 2) * ha + hb

/-- Round trip of `setFromUnitVectors` in its main branch: for unit vectors
`a`, `b` with `dot a b + 1` at least `Number.EPSILON`, rotating `a` by the
computed quaternion yields exactly `b`. -/
theorem applyQuaternion_setFromUnitVectors (a b : Vec3)
    (ha : Vec3.dot a a = 1) (hb : Vec3.dot b b = 1)
    (hr : numberEpsilon ≤ Vec3.dot a b + 1) :
    Vec3.applyQuaternion a (Quat.setFromUnitVectors a b) = b := by
  have heps : (0 : ℝ) < numberEpsilon := by norm_num [numberEpsilon]
  have hrpos : 0 < Vec3.dot a b + 1 := lt_of_lt_of_le heps hr
  rw [Quat.setFromUnitVectors]
  rw [if_neg (not_lt.mpr hr)]
  set q0 : Quat := ⟨a.y * b.z - a.z * b.y, a.z * b.x - a.x * b.z,
                    a.x * b.y - a.y * b.x, Vec3.dot a b + 1⟩ with hq0
  have hq0sq : q0.lengthSq = 2 * (Vec3.dot a b + 1) := quat_lengthSq_cross a b ha hb
  have hLsq : q0.length ^ 2 = 2 * (Vec3.dot a b + 1) := by
    rw [Quat.length, Real.sq_sqrt (by rw [hq0sq]; linarith), hq0sq]
  have hLpos : 0 < q0.length := by
    rw [Quat.length, hq0sq]
    exact Real.sqrt_pos.mpr (by linarith)
  have hLne : q0.length ≠ 0 := ne_of_gt hLpos
  rw [Quat.normalize, if_neg hLne]
  ext
  · simp only [Vec3.applyQuaternion, hq0, Vec3.dot] at *
    field_simp
    linear_combination (a.x - b.x) * hLsq +
      (2 * (a.x * b.x + a.y * b.y + a.z * b.z + 1) * b.x -
        2 * (b.x ^ 2 + b.y ^ 2 + b.z ^ 2) * a.x) * ha + (-2 * a.x) * hb
  · simp only [Vec3.applyQuaternion, hq0, Vec3.dot] at *
    field_simp
    linear_combination (a.y - b.y) * hLsq +
      (2 * (a.x * b.x + a.y * b.y + a.z * b.z + 1) * b.y -
        2 * (b.x ^ 2 + b.y ^ 2 + b.z ^ 2) * a.y) * ha + (-2 * a.y) * hb
  · simp only [Vec3.applyQuaternion, hq0, Vec3.dot] at *
    field_simp
    linear_combination (a.z - b.z) * hLsq +
      (2 * (a.x * b.x + a.y * b.y + a.z * b.z + 1) * b.z -
        2 * (b.x ^ 2 + b.y ^ 2 + b.z ^ 2) * a.z) * ha + (-2 * a.z) * hb

theorem dot_normalize_self (v : Vec3) (hv : 0 < Vec3.dot v v) :
    Vec3.dot (Vec3.normalize v) (Vec3.normalize v) = 1 := by
  have hLpos : 0 < Vec3.length v := Real.sqrt_pos.mpr hv
  have hLsq : Vec3.length v ^ 2 = Vec3.dot v v := Real.sq_sqrt hv.le
  rw [Vec3.normalize, if_neg (ne_of_gt hLpos)]
  simp only [Vec3.dot] at *
  field_simp
  linear_combination (-1 : ℝ) * hLsq

theorem length_normalize (v : Vec3) (hv : 0 < Vec3.dot v v) :
    Vec3.length (Vec3.normalize v) = 1 := by
  rw [Vec3.length, dot_normalize_self v hv, Real.sqrt_one]

theorem normalize_inj (v w : Vec3) (hv : 0 < Vec3.dot v v)
    (hdot : Vec3.dot v v = Vec3.dot w w) (hne : v ≠ w) :
    Vec3.normalize v ≠ Vec3.normalize w := by
  have hLv : Vec3.length v = Vec3.length w := by rw [Vec3.length, Vec3.length, hdot]
  have hLpos : 0 < Vec3.length v := Real.sqrt_pos.mpr hv
  have hLne : Vec3.length v ≠ 0 := ne_of_gt hLpos
  intro h
  apply hne
  rw [Vec3.normalize, Vec3.normalize, if_neg hLne, if_neg (hLv ▸ hLne)] at h
  rw [← hLv] at h
  have hx := congrArg Vec3.x h
  have hy := congrArg Vec3.y h
  have hz := congrArg Vec3.z h
  simp only at hx hy hz
  field_simp [hLne] at hx hy hz
  ext
  · exact hx
  · exact hy
  · exact hz

/-- The dot product of a normalized vector with the viewer axis stays at
least `Number.EPSILON − 1` whenever the vector's z-component is bounded away
from the negative axis: `z² < (81/100)·‖v‖²` gives `z/‖v‖ > −9/10`. -/
theorem eps_le_dot_normalize_viewerAxis (v : Vec3) (hv : 0 < Vec3.dot v v)
    (hz : v.z * v.z < 81 / 100 * Vec3.dot v v) :
    numberEpsilon ≤ Vec3.dot (Vec3.normalize v) viewerAxis + 1 := by
  have hLpos : 0 < Vec3.length v := Real.sqrt_pos.mpr hv
  have hLsq : Vec3.length v ^ 2 = Vec3.dot v v := Real.sq_sqrt hv.le
  have hdot : Vec3.dot (Vec3.normalize v) viewerAxis = v.z / Vec3.length v := by
    rw [Vec3.normalize, if_neg (ne_of_gt hLpos)]
    simp [Vec3.dot, viewerAxis]
  rw [hdot]
  set t := v.z / Vec3.length v with ht
  have htsq : t ^ 2 < 81 / 100 := by
    rw [ht, div_pow, hLsq]
    rw [div_lt_iff₀ hv]
    nlinarith
  have htlb : -(9 / 10) < t := by nlinarith [sq_nonneg (t + 9 / 10)]
  have : numberEpsilon ≤ 1 / 10 := by norm_num [numberEpsilon]
  linarith

/-- Modelled from the spec: the `DieType` enumeration (imported by both
source files from `types.ts`, which is not among the source files) is a
numeric enum identifying the die kind; its numeric value is the face count,
used directly by `rollDice` as `Math.random() * selectedDie`. -/
inductive DieType where
  | D4
  | D6
  | D8
  | D10
deriving DecidableEq, Repr

/-- The numeric value of a `DieType` member (= its face count N). -/
def DieType.sides : DieType → ℕ
  | .D4 => 4
  | .D6 => 6
  | .D8 => 8
  | .D10 => 10

/-- One entry of the `faces` array built by `getDieConfig`: the numeric label
shown on the face and the outward face normal in the die's local frame. -/
structure Face where
  value : ℤ
  normal : Vec3

/-- The angle used for face `i` of the D10 in `getDieConfig`:
`(i / 5) * Math.PI * 2 + (Math.PI / 5)` — offset to the center of the face. -/
noncomputable def d10Angle (i : ℕ) : ℝ := (i : ℝ) / 5 * Real.pi * 2 + Real.pi / 5

/-- The D10 face list built by the loop in `getDieConfig` (case `DieType.D10`):
for i = 0..4 the upper face, with normal `(sin angle, 0.5, cos angle)`
normalized, gets value `i * 2 + 1`, and the lower face, with normal
`(sin angle, -0.5, cos angle)` normalized, gets value `i * 2 + 2`. -/
noncomputable def d10Faces : List Face :=
  (List.range 5).flatMap fun i =>
    [{ value := (i : ℤ) * 2 + 1,
       normal := Vec3.normalize ⟨Real.sin (d10Angle i), 0.5, Real.cos (d10Angle i)⟩ },
     { value := (i : ℤ) * 2 + 2,
       normal := Vec3.normalize ⟨Real.sin (d10Angle i), -0.5, Real.cos (d10Angle i)⟩ }]

/-- `getDieConfig` from `Die3D.tsx`, restricted to its `faces` component.
(The `geometry` component is a three.js `BufferGeometry` object used only
for rendering; no claim refers to it, and it is outside this embedding.) -/
noncomputable def getDieConfig : DieType → List Face
  | .D4 =>
      [{ value := 1, normal := Vec3.normalize ⟨1, 1, 1⟩ },
       { value := 2, normal := Vec3.normalize ⟨-1, -1, 1⟩ },
       { value := 3, normal := Vec3.normalize ⟨-1, 1, -1⟩ },
       { value := 4, normal := Vec3.normalize ⟨1, -1, -1⟩ }]
  | .D6 =>
      [{ value := 1, normal := ⟨1, 0, 0⟩ },
       { value := 2, normal := ⟨-1, 0, 0⟩ },
       { value := 3, normal := ⟨0, 1, 0⟩ },
       { value := 4, normal := ⟨0, -1, 0⟩ },
       { value := 5, normal := ⟨0, 0, 1⟩ },
       { value := 6, normal := ⟨0, 0, -1⟩ }]
  | .D8 =>
      [{ value := 1, normal := Vec3.normalize ⟨1, 1, 1⟩ },
       { value := 2, normal := Vec3.normalize ⟨-1, 1, 1⟩ },
       { value := 3, normal := Vec3.normalize ⟨1, 1, -1⟩ },
       { value := 4, normal := Vec3.normalize ⟨-1, 1, -1⟩ },
       { value := 5, normal := Vec3.normalize ⟨1, -1, 1⟩ },
       { value := 6, normal := Vec3.normalize ⟨-1, -1, 1⟩ },
       { value := 7, normal := Vec3.normalize ⟨1, -1, -1⟩ },
       { value := 8, normal := Vec3.normalize ⟨-1, -1, -1⟩ }]
  | .D10 => d10Faces

/-- Round trip for a face whose normal is `normalize v`, when `v` is bounded
away from the negative viewer axis. -/
theorem roundtrip_normalize (v : Vec3) (hv : 0 < Vec3.dot v v)
    (hz : v.z * v.z < 81 / 100 * Vec3.dot v v) :
    Vec3.applyQuaternion (Vec3.normalize v)
      (Quat.setFromUnitVectors (Vec3.normalize v) viewerAxis) = viewerAxis := by
  apply applyQuaternion_setFromUnitVectors
  · exact dot_normalize_self v hv
  · simp [Vec3.dot, viewerAxis]
  · exact eps_le_dot_normalize_viewerAxis v hv hz

/-- The `targetQuaternion` memo of `DieMesh` (`Die3D.tsx`): `null` when
`result` is `null` or the mesh ref is unset; otherwise the first face whose
`value` equals `result` is looked up with `find`, falling back to `faces[0]`
when there is no match, and the rotation `setFromUnitVectors(face.normal,
(0,0,1))` is returned.  (`faces[0]` of an empty list is modelled as `none`;
every face list the component ever passes is nonempty.) -/
noncomputable def targetQuaternion (result : Option ℤ) (meshCurrent : Bool)
    (faces : List Face) : Option Quat :=
  match result, meshCurrent with
  | none, _ => none
  | some _, false => none
  | some r, true =>
      let found := faces.find? fun f => f.value == r
      let face := match found with
        | some f => some f
        | none => faces.head?
      face.map fun f => Quat.setFromUnitVectors f.normal viewerAxis

/-- The value computed in the settle timer of `rollDice`
(`DiceRoller.tsx`): `Math.floor(u * sides) + 1`, with the uniform sample
`u = Math.random()` made an explicit rational parameter. -/
def rollValue (u : ℚ) (sides : ℕ) : ℤ := ⌊u * sides⌋ + 1

/-- The widget state owned by `DiceRoller` — the three `useState` cells —
together with the list of outstanding settle timers.  Each pending timer
entry records the `selectedDie` value captured by the `setTimeout` closure
when the roll was initiated; timers fire in FIFO order (all have the same
800 ms delay). -/
structure WidgetState where
  selectedDie : DieType
  result : Option ℤ
  isRolling : Bool
  pending : List DieType
deriving DecidableEq, Repr

/-- The events the widget reacts to: a click on the die (`rollDice`), an
outstanding settle timer firing (with the `Math.random()` sample drawn at
that moment), and a click on a die-type selection button. -/
inductive WEvent where
  | rollClick
  | timerFire (u : ℚ)
  | selectDie (t : DieType)
deriving DecidableEq

/-- One step of the widget, straight from the handlers in `DiceRoller.tsx`:

* `rollDice`: returns unchanged when `isRolling`; otherwise sets
  `isRolling := true`, `result := null` and schedules a timer that captured
  the current `selectedDie`;
* a timer firing: sets `result` to the freshly rolled value — computed from
  the captured side count — and `isRolling := false` (a `timerFire` with no
  timer outstanding cannot occur and is modelled as a no-op);
* the selection button `onClick`: sets `selectedDie := t`, `result := 1`,
  `isRolling := false`, and does not cancel any pending timer. -/
def step (s : WidgetState) : WEvent → WidgetState
  | .rollClick =>
      if s.isRolling then s
      else { s with isRolling := true, result := none,
                    pending := s.pending ++ [s.selectedDie] }
  | .timerFire u =>
      match s.pending with
      | [] => s
      | t :: rest =>
          { s with result := some (rollValue u t.sides), isRolling := false,
                   pending := rest }
  | .selectDie t =>
      { s with selectedDie := t, result := some 1, isRolling := false }

/-- The state created at widget mount:
`useState(DieType.D6)`, `useState(1)`, `useState(false)`. -/
def initState : WidgetState := ⟨DieType.D6, some 1, false, []⟩

/-- Run the widget from mount through a list of events. -/
def run (es : List WEvent) : WidgetState := es.foldl step initState

/-- The states the widget can reach from mount; every timer sample is a
uniform draw in [0, 1). -/
inductive Reachable : WidgetState → Prop where
  | init : Reachable initState
  | roll {s : WidgetState} : Reachable s → Reachable (step s .rollClick)
  | timer {s : WidgetState} {u : ℚ} : Reachable s → 0 ≤ u → u < 1 →
      Reachable (step s (.timerFire u))
  | select {s : WidgetState} {t : DieType} : Reachable s →
      Reachable (step s (.selectDie t))

/-- The states reachable when the die kind is never switched while a settle
timer is pending (the `select` step is only taken with no timer
outstanding). -/
inductive ReachableNoSwitch : WidgetState → Prop where
  | init : ReachableNoSwitch initState
  | roll {s : WidgetState} : ReachableNoSwitch s →
      ReachableNoSwitch (step s .rollClick)
  | timer {s : WidgetState} {u : ℚ} : ReachableNoSwitch s → 0 ≤ u → u < 1 →
      ReachableNoSwitch (step s (.timerFire u))
  | select {s : WidgetState} {t : DieType} : ReachableNoSwitch s →
      s.pending = [] → ReachableNoSwitch (step s (.selectDie t))

/-- One re-render of the `targetQuaternion` `useMemo` cell, whose dependency
array is `[result, faces]` (`faces` is fixed here): the memoized value is
recomputed — reading the mesh ref at that moment — only when `result`
differs from the value it had at the last computation. -/
noncomputable def memoStep (faces : List Face)
    (st : Option Quat × Option ℤ) (input : Option ℤ × Bool) :
    Option Quat × Option ℤ :=
  if input.1 = st.2 then st
  else (targetQuaternion input.1 input.2 faces, input.1)

theorem one_le_sides (t : DieType) : 1 ≤ t.sides := by
  cases t <;> decide

theorem rollValue_bounds (u : ℚ) (n : ℕ) (hn : 1 ≤ n) (h0 : 0 ≤ u) (h1 : u < 1) :
    1 ≤ rollValue u n ∧ rollValue u n ≤ (n : ℤ) := by
  unfold rollValue
  have hnpos : (0 : ℚ) < n := by exact_mod_cast hn
  constructor
  · have h : (0 : ℤ) ≤ ⌊u * n⌋ := Int.floor_nonneg.mpr (mul_nonneg h0 hnpos.le)
    omega
  · have h : ⌊u * (n : ℚ)⌋ < (n : ℤ) := by
      apply Int.floor_lt.mpr
      push_cast
      calc u * n < 1 * n := mul_lt_mul_of_pos_right h1 hnpos
        _ = n := one_mul _
    omega

/-- C5: `rollDice` computes `Math.floor(u * sides) + 1` from the uniform
sample `u ∈ [0, 1)`, so for every `sides ≥ 1` the result lies in
{1..sides}; with `u = 0` the result is 1, and for `u` within `1/sides` of 1
(in particular just below 1) the result is `sides`. -/
theorem rollValue_spec (sides : ℕ) (u : ℚ) (hs : 1 ≤ sides) (h0 : 0 ≤ u)
    (h1 : u < 1) :
    (1 ≤ rollValue u sides ∧ rollValue u sides ≤ (sides : ℤ)) ∧
    rollValue 0 sides = 1 ∧
    (1 - 1 / (sides : ℚ) ≤ u → rollValue u sides = (sides : ℤ)) := by
  have hspos : (0 : ℚ) < sides := by exact_mod_cast hs
  refine ⟨rollValue_bounds u sides hs h0 h1, ?_, ?_⟩
  · simp [rollValue]
  · intro hge
    have hup : ⌊u * (sides : ℚ)⌋ < (sides : ℤ) := by
      apply Int.floor_lt.mpr
      push_cast
      calc u * sides < 1 * sides := mul_lt_mul_of_pos_right h1 hspos
        _ = sides := one_mul _
    have hlow : (sides : ℤ) - 1 ≤ ⌊u * (sides : ℚ)⌋ := by
      apply Int.le_floor.mpr
      have h2 : (1 - 1 / (sides : ℚ)) * sides ≤ u * sides :=
        mul_le_mul_of_nonneg_right hge hspos.le
      have h3 : (1 - 1 / (sides : ℚ)) * sides = sides - 1 := by
        field_simp
      push_cast
      linarith [h3 ▸ h2]
    unfold rollValue
    omega

theorem rollValue_spec_witness :
    (1 ≤ rollValue (9999 / 10000) 10 ∧
      rollValue (9999 / 10000) 10 ≤ ((10 : ℕ) : ℤ)) ∧
    rollValue 0 10 = 1 ∧
    (1 - 1 / ((10 : ℕ) : ℚ) ≤ (9999 / 10000 : ℚ) →
      rollValue (9999 / 10000) 10 = ((10 : ℕ) : ℤ)) :=
  rollValue_spec 10 (9999 / 10000) (by norm_num) (by norm_num) (by norm_num)

/-- C9: clicking the die while `isRolling` is a no-op — the whole state,
pending timers included, is unchanged and no new settle timer is added. -/
theorem rollClick_noop (s : WidgetState) (h : s.isRolling = true) :
    step s .rollClick = s := by
  simp [step, h]

theorem rollClick_noop_witness :
    step ⟨DieType.D6, none, true, [DieType.D6]⟩ .rollClick =
      ⟨DieType.D6, none, true, [DieType.D6]⟩ :=
  rollClick_noop _ rfl

/-- C7: switching the die kind while a settle timer is pending does not
cancel the timer — it still fires, overwriting the reset result (and
`isRolling`) with a value computed from the side count captured when the
roll was initiated, not from the newly selected kind. -/
theorem switch_then_timer (s : WidgetState) (t : DieType) (rest : List DieType)
    (k : DieType) (u : ℚ) (hp : s.pending = t :: rest) :
    step (step s (.selectDie k)) (.timerFire u) =
      { selectedDie := k, result := some (rollValue u t.sides),
        isRolling := false, pending := rest } := by
  simp [step, hp]

theorem switch_then_timer_witness :
    step (step ⟨DieType.D6, none, true, [DieType.D6]⟩ (.selectDie DieType.D4))
        (.timerFire (1 / 2)) =
      { selectedDie := DieType.D4,
        result := some (rollValue (1 / 2) DieType.D6.sides),
        isRolling := false, pending := [] } :=
  switch_then_timer ⟨DieType.D6, none, true, [DieType.D6]⟩ DieType.D6 []
    DieType.D4 (1 / 2) rfl

/-- C8: switching the selected die kind sets the displayed result to 1 and
`isRolling` to `false`, and the configurator produces a face set whose size
is the new kind's face count N. -/
theorem selectDie_resets (s : WidgetState) (k : DieType) :
    (step s (.selectDie k)).result = some 1 ∧
    (step s (.selectDie k)).isRolling = false ∧
    (step s (.selectDie k)).selectedDie = k ∧
    (getDieConfig (step s (.selectDie k)).selectedDie).length = k.sides := by
  refine ⟨rfl, rfl, rfl, ?_⟩
  show (getDieConfig k).length = k.sides
  cases k <;> rfl

/-- C4: `targetQuaternion` is absent when `result` is absent; otherwise it
selects the (first) face whose value equals `result`, and when no face with
that value exists it falls back to the first face of the set rather than
failing. -/
theorem targetQuaternion_spec (faces : List Face) (m : Bool) (r : ℤ) :
    targetQuaternion none m faces = none ∧
    (∀ f : Face, faces.find? (fun g => g.value == r) = some f →
      targetQuaternion (some r) true faces =
        some (Quat.setFromUnitVectors f.normal viewerAxis)) ∧
    (faces.find? (fun g => g.value == r) = none →
      ∀ (f₀ : Face) (fs : List Face), faces = f₀ :: fs →
        targetQuaternion (some r) true faces =
          some (Quat.setFromUnitVectors f₀.normal viewerAxis)) := by
  refine ⟨rfl, ?_, ?_⟩
  · intro f hf
    simp [targetQuaternion, hf]
  · intro hf f₀ fs hfaces
    subst hfaces
    simp [targetQuaternion, hf]

theorem targetQuaternion_spec_witness :
    targetQuaternion (some 7) true (getDieConfig DieType.D6) =
      some (Quat.setFromUnitVectors (Face.mk 1 ⟨1, 0, 0⟩).normal viewerAxis) :=
  (targetQuaternion_spec (getDieConfig DieType.D6) true 7).2.2 (by rfl)
    (Face.mk 1 ⟨1, 0, 0⟩)
    [⟨2, ⟨-1, 0, 0⟩⟩, ⟨3, ⟨0, 1, 0⟩⟩, ⟨4, ⟨0, -1, 0⟩⟩, ⟨5, ⟨0, 0, 1⟩⟩,
     ⟨6, ⟨0, 0, -1⟩⟩] (by rfl)

theorem memo_keeps_none (faces : List Face) :
    ∀ inputs : List (Option ℤ × Bool), (∀ p ∈ inputs, p.1 = some 1) →
      List.foldl (memoStep faces) (none, some 1) inputs = (none, some 1)
  | [], _ => rfl
  | p :: ps, h => by
      rw [List.foldl_cons,
        show memoStep faces (none, some 1) p = (none, some 1) by
          simp [memoStep, h p (List.mem_cons_self p ps)]]
      exact memo_keeps_none faces ps fun q hq => h q (List.mem_cons_of_mem p hq)

/-- C10: the settle-target computation is absent whenever the mesh ref is
unset, even when `result` is present; and since the memo recomputes only
when `result` (or the face set) changes, the initially mounted state
(`result = 1`, ref unset during the first render) keeps an absent settle
target through any further renders until `result` changes for the first
time. -/
theorem targetQuaternion_initially_none (faces : List Face) (r : ℤ)
    (inputs : List (Option ℤ × Bool)) (hinputs : ∀ p ∈ inputs, p.1 = some 1) :
    targetQuaternion (some r) false faces = none ∧
    (List.foldl (memoStep faces)
      (targetQuaternion (some 1) false faces, some 1) inputs).1 = none := by
  refine ⟨rfl, ?_⟩
  rw [show targetQuaternion (some 1) false faces = none from rfl,
    memo_keeps_none faces inputs hinputs]

theorem targetQuaternion_initially_none_witness :
    targetQuaternion (some 5) false (getDieConfig DieType.D6) = none ∧
    (List.foldl (memoStep (getDieConfig DieType.D6))
      (targetQuaternion (some 1) false (getDieConfig DieType.D6), some 1)
      [(some 1, true), (some 1, true)]).1 = none :=
  targetQuaternion_initially_none (getDieConfig DieType.D6) 5
    [(some 1, true), (some 1, true)] (by intro p hp; fin_cases hp <;> rfl)

/-- The strengthened roll-state invariant: while rolling the result is
absent and exactly one timer — capturing the current kind — is pending;
otherwise no timer is pending and the result is a value in {1..N} of the
currently selected kind. -/
def RollInv (s : WidgetState) : Prop :=
  (s.isRolling = true → s.result = none ∧ s.pending = [s.selectedDie]) ∧
  (s.isRolling = false → s.pending = [] ∧
    ∃ n : ℤ, s.result = some n ∧ 1 ≤ n ∧ n ≤ (s.selectedDie.sides : ℤ))

theorem noSwitch_inv {s : WidgetState} (h : ReachableNoSwitch s) : RollInv s := by
  induction h with
  | init =>
      constructor
      · intro hb; cases hb
      · intro _
        exact ⟨rfl, 1, rfl, le_refl 1, by norm_num [initState, DieType.sides]⟩
  | @roll s hr ih =>
      cases hb : s.isRolling with
      | true =>
          rw [show step s .rollClick = s by simp [step, hb]]
          exact ih
      | false =>
          obtain ⟨hp, -⟩ := ih.2 hb
          rw [show step s .rollClick =
              { s with isRolling := true, result := none,
                       pending := s.pending ++ [s.selectedDie] } by
            simp [step, hb]]
          constructor
          · intro _
            exact ⟨rfl, by rw [hp]; rfl⟩
          · intro hfalse; cases hfalse
  | @timer s u hr h0 h1 ih =>
      cases hp : s.pending with
      | nil =>
          rw [show step s (.timerFire u) = s by simp [step, hp]]
          exact ih
      | cons t rest =>
          have hroll : s.isRolling = true := by
            cases hb : s.isRolling with
            | false =>
                obtain ⟨hemp, -⟩ := ih.2 hb
                rw [hp] at hemp
                cases hemp
            | true => rfl
          obtain ⟨-, hpend⟩ := ih.1 hroll
          rw [hp] at hpend
          injection hpend with ht hrest
          rw [show step s (.timerFire u) =
              { s with result := some (rollValue u t.sides),
                       isRolling := false, pending := rest } by
            simp [step, hp]]
          constructor
          · intro hfalse; cases hfalse
          · intro _
            refine ⟨by rw [hrest], rollValue u t.sides, rfl, ?_, ?_⟩
            · exact (rollValue_bounds u t.sides (one_le_sides t) h0 h1).1
            · show rollValue u t.sides ≤ (s.selectedDie.sides : ℤ)
              rw [← ht]
              exact (rollValue_bounds u t.sides (one_le_sides t) h0 h1).2
  | @select s t hr hpend ih =>
      rw [show step s (.selectDie t) =
          { s with selectedDie := t, result := some 1, isRolling := false }
        from rfl]
      constructor
      · intro hfalse; cases hfalse
      · intro _
        refine ⟨hpend, 1, rfl, le_refl 1, ?_⟩
        exact_mod_cast one_le_sides t

/-- C6 (amended): in every reachable state of the widget in which the die
kind is never switched while a settle timer is pending, `result` is absent
while `isRolling` is true, and otherwise `result` is present and lies in
{1..N} for the currently selected kind.  (Without that proviso the claim
fails: see the counterexample, where a roll of the D6 settles after the
user has switched to the D4, leaving `result = 6 ∉ {1..4}`.) -/
theorem rollState_invariant (s : WidgetState) (h : ReachableNoSwitch s) :
    (s.isRolling = true → s.result = none) ∧
    (s.isRolling = false →
      ∃ n : ℤ, s.result = some n ∧ 1 ≤ n ∧ n ≤ (s.selectedDie.sides : ℤ)) := by
  obtain ⟨h1, h2⟩ := noSwitch_inv h
  exact ⟨fun hb => (h1 hb).1, fun hb => (h2 hb).2⟩

theorem rollState_invariant_witness :
    (initState.isRolling = true → initState.result = none) ∧
    (initState.isRolling = false →
      ∃ n : ℤ, initState.result = some n ∧ 1 ≤ n ∧
        n ≤ (initState.selectedDie.sides : ℤ)) :=
  rollState_invariant initState ReachableNoSwitch.init

/-- C6 (counterexample to the claim as stated): the run
roll → switch to D4 → timer fires with sample 9/10 is reachable with every
sample in [0, 1), yet it ends not rolling with `result = 6` while the
selected kind is the D4 with 4 faces — the result does not lie in {1..N}
of the currently selected kind. -/
theorem rollState_invariant_counterexample :
    Reachable (run [.rollClick, .selectDie DieType.D4, .timerFire (9 / 10)]) ∧
    (run [.rollClick, .selectDie DieType.D4, .timerFire (9 / 10)]).isRolling
      = false ∧
    (run [.rollClick, .selectDie DieType.D4, .timerFire (9 / 10)]).result
      = some 6 ∧
    (run [.rollClick, .selectDie DieType.D4, .timerFire (9 / 10)]).selectedDie
      = DieType.D4 ∧
    ¬((6 : ℤ) ≤ (DieType.D4.sides : ℤ)) := by
  have hfloor : rollValue (9 / 10) DieType.D6.sides = 6 := by
    rw [rollValue, show DieType.D6.sides = 6 from rfl,
      show ⌊((9 : ℚ) / 10 * ((6 : ℕ) : ℚ))⌋ = 5 by
        rw [Int.floor_eq_iff]
        norm_num]
    norm_num
  have hrun : run [.rollClick, .selectDie DieType.D4, .timerFire (9 / 10)] =
      ⟨DieType.D4, some 6, false, []⟩ := by
    simp [run, step, initState, hfloor]
  refine ⟨?_, by rw [hrun], by rw [hrun], by rw [hrun], by decide⟩
  show Reachable (step (step (step initState .rollClick)
    (.selectDie DieType.D4)) (.timerFire (9 / 10)))
  exact Reachable.timer (Reachable.select (Reachable.roll Reachable.init))
    (by norm_num) (by norm_num)

theorem d10_dot (θ y : ℝ) (hy : y * y = 1 / 4) :
    Vec3.dot ⟨Real.sin θ, y, Real.cos θ⟩ ⟨Real.sin θ, y, Real.cos θ⟩ = 5 / 4 := by
  simp only [Vec3.dot]
  nlinarith [Real.sin_sq_add_cos_sq θ]

theorem d10Angle_inj {i j : ℕ} (hi : i < 5) (hj : j < 5)
    (hcos : Real.cos (d10Angle i) = Real.cos (d10Angle j))
    (hsin : Real.sin (d10Angle i) = Real.sin (d10Angle j)) : i = j := by
  have h := Real.Angle.cos_sin_inj hcos hsin
  rw [Real.Angle.angle_eq_iff_two_pi_dvd_sub] at h
  obtain ⟨k, hk⟩ := h
  rw [d10Angle, d10Angle] at hk
  have hcancel : ((i : ℝ) - j) * Real.pi = 5 * k * Real.pi := by
    linear_combination (5 / 2) * hk
  have hij : ((i : ℝ) - j) = 5 * k := mul_right_cancel₀ Real.pi_ne_zero hcancel
  have hz : (i : ℤ) - (j : ℤ) = 5 * k := by exact_mod_cast hij
  omega

/-- Abbreviation for the analytically computed D10 face normal at index `i`
with vertical component `y` (0.5 above the equator, −0.5 below). -/
noncomputable def d10Normal (i : ℕ) (y : ℝ) : Vec3 :=
  Vec3.normalize ⟨Real.sin (d10Angle i), y, Real.cos (d10Angle i)⟩

theorem d10Normal_ne {i j : ℕ} (hi : i < 5) (hj : j < 5) (yi yj : ℝ)
    (hyi : yi * yi = 1 / 4) (hyj : yj * yj = 1 / 4)
    (hne : ¬(i = j ∧ yi = yj)) : d10Normal i yi ≠ d10Normal j yj := by
  apply normalize_inj
  · rw [d10_dot _ _ hyi]; norm_num
  · rw [d10_dot _ _ hyi, d10_dot _ _ hyj]
  · intro hv
    have hx := congrArg Vec3.x hv
    have hy := congrArg Vec3.y hv
    have hz := congrArg Vec3.z hv
    simp only at hx hy hz
    exact hne ⟨d10Angle_inj hi hj hz hx, hy⟩

theorem d10_map_normal :
    d10Faces.map Face.normal =
      [d10Normal 0 0.5, d10Normal 0 (-0.5), d10Normal 1 0.5, d10Normal 1 (-0.5),
       d10Normal 2 0.5, d10Normal 2 (-0.5), d10Normal 3 0.5, d10Normal 3 (-0.5),
       d10Normal 4 0.5, d10Normal 4 (-0.5)] := by
  rfl

/-- C2: for every die kind with N faces, `getDieConfig` returns exactly N
faces, their values form the contiguous set {1..N} with each value occurring
exactly once, every face normal has unit length, and the normals are
pairwise distinct (hence pairwise distinct in direction, being unit
vectors). -/
theorem getDieConfig_invariants (t : DieType) :
    (getDieConfig t).length = t.sides ∧
    (∀ v : ℤ, v ∈ (getDieConfig t).map Face.value ↔
      1 ≤ v ∧ v ≤ (t.sides : ℤ)) ∧
    ((getDieConfig t).map Face.value).Nodup ∧
    (∀ f ∈ getDieConfig t, Vec3.length f.normal = 1) ∧
    ((getDieConfig t).map Face.normal).Pairwise (fun a b => a ≠ b) := by
  cases t with
  | D4 =>
      refine ⟨rfl, ?_, ?_, ?_, ?_⟩
      · intro v
        rw [show (getDieConfig DieType.D4).map Face.value = [1, 2, 3, 4]
          from rfl]
        simp only [List.mem_cons, List.not_mem_nil, or_false, DieType.sides]
        omega
      · rw [show (getDieConfig DieType.D4).map Face.value = [1, 2, 3, 4]
          from rfl]
        decide
      · intro f hf
        fin_cases hf <;>
          exact length_normalize _ (by norm_num [Vec3.dot])
      · rw [show (getDieConfig DieType.D4).map Face.normal =
            [Vec3.normalize ⟨1, 1, 1⟩, Vec3.normalize ⟨-1, -1, 1⟩,
             Vec3.normalize ⟨-1, 1, -1⟩, Vec3.normalize ⟨1, -1, -1⟩] from rfl]
        refine List.pairwise_iff_getElem.mpr ?_
        intro i j hi hj hij
        simp only [List.length_cons, List.length_nil] at hi hj
        interval_cases i <;> interval_cases j <;>
          (simp only [List.getElem_cons_zero, List.getElem_cons_succ]
           exact normalize_inj _ _ (by norm_num [Vec3.dot])
             (by norm_num [Vec3.dot]) (by norm_num [Vec3.mk.injEq]))
  | D6 =>
      refine ⟨rfl, ?_, ?_, ?_, ?_⟩
      · intro v
        rw [show (getDieConfig DieType.D6).map Face.value = [1, 2, 3, 4, 5, 6]
          from rfl]
        simp only [List.mem_cons, List.not_mem_nil, or_false, DieType.sides]
        omega
      · rw [show (getDieConfig DieType.D6).map Face.value = [1, 2, 3, 4, 5, 6]
          from rfl]
        decide
      · intro f hf
        fin_cases hf <;>
          (rw [Vec3.length]; norm_num [Vec3.dot, Real.sqrt_one])
      · rw [show (getDieConfig DieType.D6).map Face.normal =
            [(⟨1, 0, 0⟩ : Vec3), ⟨-1, 0, 0⟩, ⟨0, 1, 0⟩, ⟨0, -1, 0⟩,
             ⟨0, 0, 1⟩, ⟨0, 0, -1⟩] from rfl]
        refine List.pairwise_iff_getElem.mpr ?_
        intro i j hi hj hij
        simp only [List.length_cons, List.length_nil] at hi hj
        interval_cases i <;> interval_cases j <;>
          (simp only [List.getElem_cons_zero, List.getElem_cons_succ]
           norm_num [Vec3.mk.injEq])
  | D8 =>
      refine ⟨rfl, ?_, ?_, ?_, ?_⟩
      · intro v
        rw [show (getDieConfig DieType.D8).map Face.value =
          [1, 2, 3, 4, 5, 6, 7, 8] from rfl]
        simp only [List.mem_cons, List.not_mem_nil, or_false, DieType.sides]
        omega
      · rw [show (getDieConfig DieType.D8).map Face.value =
          [1, 2, 3, 4, 5, 6, 7, 8] from rfl]
        decide
      · intro f hf
        fin_cases hf <;>
          exact length_normalize _ (by norm_num [Vec3.dot])
      · rw [show (getDieConfig DieType.D8).map Face.normal =
            [Vec3.normalize ⟨1, 1, 1⟩, Vec3.normalize ⟨-1, 1, 1⟩,
             Vec3.normalize ⟨1, 1, -1⟩, Vec3.normalize ⟨-1, 1, -1⟩,
             Vec3.normalize ⟨1, -1, 1⟩, Vec3.normalize ⟨-1, -1, 1⟩,
             Vec3.normalize ⟨1, -1, -1⟩, Vec3.normalize ⟨-1, -1, -1⟩] from rfl]
        refine List.pairwise_iff_getElem.mpr ?_
        intro i j hi hj hij
        simp only [List.length_cons, List.length_nil] at hi hj
        interval_cases i <;> interval_cases j <;>
          (simp only [List.getElem_cons_zero, List.getElem_cons_succ]
           exact normalize_inj _ _ (by norm_num [Vec3.dot])
             (by norm_num [Vec3.dot]) (by norm_num [Vec3.mk.injEq]))
  | D10 =>
      refine ⟨rfl, ?_, ?_, ?_, ?_⟩
      · intro v
        rw [show (getDieConfig DieType.D10).map Face.value =
          [1, 2, 3, 4, 5, 6, 7, 8, 9, 10] from rfl]
        simp only [List.mem_cons, List.not_mem_nil, or_false, DieType.sides]
        omega
      · rw [show (getDieConfig DieType.D10).map Face.value =
          [1, 2, 3, 4, 5, 6, 7, 8, 9, 10] from rfl]
        decide
      · intro f hf
        simp only [getDieConfig, d10Faces, List.mem_flatMap, List.mem_range]
          at hf
        obtain ⟨i, hi, hmem⟩ := hf
        simp only [List.mem_cons, List.not_mem_nil, or_false] at hmem
        rcases hmem with h | h <;> subst h <;>
          exact length_normalize _ (by rw [d10_dot _ _ (by norm_num)]; norm_num)
      · rw [show (getDieConfig DieType.D10).map Face.normal =
          d10Faces.map Face.normal from rfl, d10_map_normal]
        refine List.pairwise_iff_getElem.mpr ?_
        intro i j hi hj hij
        simp only [List.length_cons, List.length_nil] at hi hj
        interval_cases i <;> interval_cases j <;>
          (simp only [List.getElem_cons_zero, List.getElem_cons_succ]
           exact d10Normal_ne (by norm_num) (by norm_num) _ _ (by norm_num)
             (by norm_num) (by norm_num))

/-- C3: for every i in 0..4, at the angle θ = i·72° + 36° (in radians
`i·(2π/5) + π/5`, the form `(i/5)·π·2 + π/5` computed by the loop), the D10
configuration assigns the odd value 2i+1 to the face with normal
(sin θ, 0.5, cos θ) normalized — at list position 2i — and the even value
2i+2 to the face with normal (sin θ, −0.5, cos θ) normalized — at list
position 2i+1. -/
theorem d10_face_assignment (i : ℕ) (hi : i < 5) :
    d10Angle i = (i : ℝ) * (2 * Real.pi / 5) + Real.pi / 5 ∧
    (getDieConfig DieType.D10)[2 * i]? =
      some { value := 2 * (i : ℤ) + 1,
             normal := Vec3.normalize
               ⟨Real.sin (d10Angle i), 0.5, Real.cos (d10Angle i)⟩ } ∧
    (getDieConfig DieType.D10)[2 * i + 1]? =
      some { value := 2 * (i : ℤ) + 2,
             normal := Vec3.normalize
               ⟨Real.sin (d10Angle i), -0.5, Real.cos (d10Angle i)⟩ } := by
  refine ⟨by rw [d10Angle]; ring, ?_, ?_⟩
  · interval_cases i <;> rfl
  · interval_cases i <;> rfl

theorem d10_face_assignment_witness :
    (3 : ℕ) < 5 ∧
    (d10Angle 3 = ((3 : ℕ) : ℝ) * (2 * Real.pi / 5) + Real.pi / 5 ∧
     (getDieConfig DieType.D10)[2 * 3]? =
       some { value := 2 * ((3 : ℕ) : ℤ) + 1,
              normal := Vec3.normalize
                ⟨Real.sin (d10Angle 3), 0.5, Real.cos (d10Angle 3)⟩ } ∧
     (getDieConfig DieType.D10)[2 * 3 + 1]? =
       some { value := 2 * ((3 : ℕ) : ℤ) + 2,
              normal := Vec3.normalize
                ⟨Real.sin (d10Angle 3), -0.5, Real.cos (d10Angle 3)⟩ }) :=
  ⟨by norm_num, d10_face_assignment 3 (by norm_num)⟩

theorem d6_down_roundtrip :
    Vec3.applyQuaternion (⟨0, 0, -1⟩ : Vec3)
      (Quat.setFromUnitVectors ⟨0, 0, -1⟩ viewerAxis) = viewerAxis := by
  have hq : Quat.setFromUnitVectors (⟨0, 0, -1⟩ : Vec3) viewerAxis =
      ⟨0, 1, 0, 0⟩ := by
    rw [Quat.setFromUnitVectors]
    norm_num [Vec3.dot, viewerAxis, numberEpsilon, Quat.normalize,
      Quat.length, Quat.lengthSq, Real.sqrt_one]
  rw [hq]
  ext <;> norm_num [Vec3.applyQuaternion, viewerAxis]

/-- C1: for every die kind and every declared face of that kind, the
rotation computed by the orientation controller —
`setFromUnitVectors(face.normal, (0,0,1))` — maps that face's normal
exactly onto the viewer axis (0, 0, 1) (hence a fortiori within
floating-point tolerance). -/
theorem targetRotation_roundtrip (t : DieType) (f : Face)
    (hf : f ∈ getDieConfig t) :
    Vec3.applyQuaternion f.normal
      (Quat.setFromUnitVectors f.normal viewerAxis) = viewerAxis := by
  cases t with
  | D4 =>
      simp only [getDieConfig] at hf
      fin_cases hf <;>
        exact roundtrip_normalize _ (by norm_num [Vec3.dot])
          (by norm_num [Vec3.dot])
  | D6 =>
      simp only [getDieConfig] at hf
      fin_cases hf
      · exact applyQuaternion_setFromUnitVectors _ _ (by norm_num [Vec3.dot])
          (by norm_num [Vec3.dot, viewerAxis])
          (by norm_num [Vec3.dot, viewerAxis, numberEpsilon])
      · exact applyQuaternion_setFromUnitVectors _ _ (by norm_num [Vec3.dot])
          (by norm_num [Vec3.dot, viewerAxis])
          (by norm_num [Vec3.dot, viewerAxis, numberEpsilon])
      · exact applyQuaternion_setFromUnitVectors _ _ (by norm_num [Vec3.dot])
          (by norm_num [Vec3.dot, viewerAxis])
          (by norm_num [Vec3.dot, viewerAxis, numberEpsilon])
      · exact applyQuaternion_setFromUnitVectors _ _ (by norm_num [Vec3.dot])
          (by norm_num [Vec3.dot, viewerAxis])
          (by norm_num [Vec3.dot, viewerAxis, numberEpsilon])
      · exact applyQuaternion_setFromUnitVectors _ _ (by norm_num [Vec3.dot])
          (by norm_num [Vec3.dot, viewerAxis])
          (by norm_num [Vec3.dot, viewerAxis, numberEpsilon])
      · exact d6_down_roundtrip
  | D8 =>
      simp only [getDieConfig] at hf
      fin_cases hf <;>
        exact roundtrip_normalize _ (by norm_num [Vec3.dot])
          (by norm_num [Vec3.dot])
  | D10 =>
      simp only [getDieConfig, d10Faces, List.mem_flatMap, List.mem_range]
        at hf
      obtain ⟨i, hi, hmem⟩ := hf
      simp only [List.mem_cons, List.not_mem_nil, or_false] at hmem
      rcases hmem with h | h <;> subst h
      · refine roundtrip_normalize _ ?_ ?_
        · rw [d10_dot _ _ (by norm_num)]; norm_num
        · rw [d10_dot _ _ (by norm_num)]
          nlinarith [Real.cos_sq_le_one (d10Angle i)]
      · refine roundtrip_normalize _ ?_ ?_
        · rw [d10_dot _ _ (by norm_num)]; norm_num
        · rw [d10_dot _ _ (by norm_num)]
          nlinarith [Real.cos_sq_le_one (d10Angle i)]

theorem targetRotation_roundtrip_witness :
    Vec3.applyQuaternion (Vec3.normalize ⟨-1, 1, -1⟩)
      (Quat.setFromUnitVectors (Vec3.normalize ⟨-1, 1, -1⟩) viewerAxis)
      = viewerAxis :=
  targetRotation_roundtrip DieType.D4
    { value := 3, normal := Vec3.normalize ⟨-1, 1, -1⟩ }
    (by simp [getDieConfig])

end Dice
